import Mathlib

/-!
Shallow embedding of the FastbuildAI console code under verification:
the user-administration controller (root-account protection, permission
cache invalidation, login-settings validation, field redaction, password
reset), the system restart coordinator, the pay-config lookup and the
conversation date-grouping helper.
-/

namespace FastbuildAI

/-- Error taxonomy produced by HttpExceptionFactory in the controllers:
`notFound` (404), `unauthorized` (401/403, the AuthorizationError of the
spec) and `paramError` (400, the ValidationError of the spec). -/
inductive HttpError where
  | notFound (msg : String)
  | unauthorized (msg : String)
  | paramError (msg : String)
deriving DecidableEq, Repr

/-- A stored user row: the immutable `id`, the `isRoot` superuser flag, and
the remaining columns (password, openid, profile fields, ...) as an
association list from column name to value. -/
structure User where
  id : String
  isRoot : Bool
  fields : List (String × String)
deriving DecidableEq, Repr

/-- Assign column `k` the value `v`: overwrite the column where present,
append it otherwise. -/
def setField (k v : String) (fs : List (String × String)) : List (String × String) :=
  if fs.any (fun kv => kv.1 == k) then
    fs.map (fun kv => if kv.1 == k then (k, v) else kv)
  else
    fs ++ [(k, v)]

/-- Apply an update DTO (a list of column assignments) to a user row. -/
def applyPatch (patch : List (String × String)) (u : User) : User :=
  { u with fields := patch.foldl (fun fs kv => setField kv.1 kv.2 fs) u.fields }

/-- The projection of a user returned to clients: the id plus every column
except the ones named in `excl` (the services excludeFields option). -/
def projectUser (excl : List String) (u : User) : List (String × String) :=
  ("id", u.id) :: u.fields.filter (fun kv => ¬ excl.contains kv.1)

/-- Account Store collaborator: find one user by id (userService.findOne
with a `where id` clause). -/
def findUser (users : List User) (id : String) : Option User :=
  users.find? (fun u => u.id == id)

/-- Account Store collaborator: userService.updateById applies the patch to
the row with the given primary key. -/
def updateUsersById (users : List User) (id : String)
    (patch : List (String × String)) : List User :=
  users.map (fun u => if u.id == id then applyPatch patch u else u)

/-- Permission cache collaborator: rolePermissionService.clearUserCache
purges the cached permission snapshot of one user. -/
def clearUserCache (cache : List String) (id : String) : List String :=
  cache.filter (fun c => c ≠ id)

/-- The mutable state the user controller acts on: the user table and the
set of user ids holding a cached permission snapshot. -/
structure AdminState where
  users : List User
  permCache : List String
deriving DecidableEq, Repr

/-- Outcome of UserController.update: the HTTP response (error or the
updated projection), the state after the call, and the warning log. -/
structure UpdateOutcome where
  response : Except HttpError (List (String × String))
  state : AdminState
  warnings : List String

/-- The tail shared by both branches of UserController.update: persist the
patch via updateById (returning the projection without the password
column), then request the permission-cache invalidation for the id;
`cacheOk` models whether clearUserCache succeeds, and on failure the error
is caught and turned into a warning log entry. -/
def afterUpdate (st : AdminState) (user : User) (patch : List (String × String))
    (cacheOk : Bool) : UpdateOutcome :=
  let users := updateUsersById st.users user.id patch
  let result := projectUser ["password"] (applyPatch patch user)
  if cacheOk then
    ⟨.ok result, ⟨users, clearUserCache st.permCache user.id⟩, []⟩
  else
    ⟨.ok result, ⟨users, st.permCache⟩, ["清理用户缓存失败"]⟩

/-- UserController.update: load the target (404 when absent); when the
target is root, only the root user itself may patch it (401 otherwise);
both the root-self branch and the non-root branch persist the patch the
same way and then request cache invalidation. -/
def update (st : AdminState) (id : String) (patch : List (String × String))
    (currentUser : User) (cacheOk : Bool) : UpdateOutcome :=
  match findUser st.users id with
  | none => ⟨.error (.notFound "用户不存在"), st, []⟩
  | some user =>
    if user.isRoot then
      if currentUser.id ≠ id then
        ⟨.error (.unauthorized "暂无权限"), st, []⟩
      else
        afterUpdate st user patch cacheOk
    else
      afterUpdate st user patch cacheOk

/-- UserController.remove: load the target (404 when absent); a root target
is rejected with 401; otherwise the row is deleted and a success flag
returned. -/
def remove (users : List User) (id : String) : Except HttpError Bool × List User :=
  match findUser users id with
  | some user =>
    if user.isRoot then
      (.error (.unauthorized "暂无权限"), users)
    else
      (.ok true, users.filter (fun u => u.id ≠ id))
  | none => (.error (.notFound "用户不存在"), users)

/-- The users of the store whose id is among the requested ids
(userService.findAll with `id In ids`). -/
def foundUsers (users : List User) (ids : List String) : List User :=
  users.filter (fun u => ids.contains u.id)

/-- The ids of the root users among the requested targets, exactly the
list interpolated into the batch-delete rejection message. -/
def rootUserIds (users : List User) (ids : List String) : List String :=
  ((foundUsers users ids).filter (fun u => u.isRoot)).map (fun u => u.id)

/-- UserController.batchRemove: when any requested target is root, reject
with 401 and a message joining every offending root id; otherwise delete
all requested rows and return a success flag. -/
def batchRemove (users : List User) (ids : List String) :
    Except HttpError Bool × List User :=
  if (rootUserIds users ids).length > 0 then
    (.error (.unauthorized
      ("超级管理员不可删除: " ++ String.intercalate ", " (rootUserIds users ids))),
     users)
  else
    (.ok true, users.filter (fun u => ¬ ids.contains u.id))

/-- UserController.getUserInfo, restricted to the user projection it
returns: userService.findOneById with excludeFields ["password"] (404 when
absent).  The permission codes, the derived permissions flag and the menu
tree returned alongside carry no user columns and are omitted. -/
def getUserInfo (users : List User) (uid : String) :
    Except HttpError (List (String × String)) :=
  match findUser users uid with
  | none => .error (.notFound "用户不存在")
  | some u => .ok (projectUser ["password"] u)

/-- UserController.findOneById (GET :id): userService.findOneById with
excludeFields ["password", "openid"] (404 when absent). -/
def findOneById (users : List User) (id : String) :
    Except HttpError (List (String × String)) :=
  match findUser users id with
  | none => .error (.notFound "用户不存在")
  | some u => .ok (projectUser ["password", "openid"] u)

/-- Modelled from the spec: UserService.generateRandomPassword is not under
src (only its caller is); per spec §4.1 it generates a random credential.
The randomness source is made explicit as a seed argument. -/
def generateRandomPassword (seed : Nat) : String :=
  "pw-" ++ toString seed

/-- Modelled from the spec: the password-hashing step of
UserService.resetPassword is not under src; per spec §3 the stored column
is a password hash derived from the plaintext credential. -/
def hashPassword (p : String) : String :=
  "hashed:" ++ p

/-- Modelled from the spec: UserService.resetPassword is not under src
(only its caller is); per spec §4.1 it loads the target and stores the new
credential as the user's password (hashed, per §3). -/
def resetPassword (users : List User) (id : String) (newPassword : String) :
    List User :=
  users.map (fun u =>
    if u.id == id then
      { u with fields := setField "password" (hashPassword newPassword) u.fields }
    else u)

/-- UserController.resetPasswordAuto: generate a random credential, reset
the target's password with it, and return the plaintext credential. -/
def resetPasswordAuto (users : List User) (id : String) (seed : Nat) :
    String × List User :=
  let randomPassword := generateRandomPassword seed
  (randomPassword, resetPassword users id randomPassword)

/-- The recognized method identifiers, Object.values(LOGIN_TYPE).  The
LOGIN_TYPE constant lives outside src; its members are the ones the
controller uses: account, phone, wechat. -/
def validLoginTypes : List String :=
  ["account", "phone", "wechat"]

/-- The login-settings configuration object (LoginSettingsConfig).  The two
method lists are optional, mirroring the truthiness check of the
validator. -/
structure LoginSettingsConfig where
  allowedLoginMethods : Option (List String)
  allowedRegisterMethods : Option (List String)
  defaultLoginMethod : String
  allowMultipleLogin : Bool
  showPolicyAgreement : Bool
deriving DecidableEq, Repr

/-- UserController.validateLoginSettings: pure validation with the checks
in source order — allowed login methods present and non-empty, default
login method a member of them, allowed register methods present and
non-empty, and every listed method a recognized identifier (first
offender reported). -/
def validateLoginSettings (c : LoginSettingsConfig) : Except HttpError Unit :=
  match c.allowedLoginMethods with
  | none => .error (.paramError "至少需要启用一种登录方式")
  | some ls =>
    if ls.isEmpty then
      .error (.paramError "至少需要启用一种登录方式")
    else if ¬ ls.contains c.defaultLoginMethod then
      .error (.paramError "默认登录方式必须在允许的登录方式列表中")
    else
      match c.allowedRegisterMethods with
      | none => .error (.paramError "至少需要启用一种注册方式")
      | some rs =>
        if rs.isEmpty then
          .error (.paramError "至少需要启用一种注册方式")
        else
          match ls.find? (fun m => ¬ validLoginTypes.contains m) with
          | some m => .error (.paramError ("无效的登录方式: " ++ m))
          | none =>
            match rs.find? (fun m => ¬ validLoginTypes.contains m) with
            | some m => .error (.paramError ("无效的注册方式: " ++ m))
            | none => .ok ()

/-- Response body of SystemService.restartApplication. -/
structure RestartResult where
  success : Bool
  message : String
deriving DecidableEq, Repr

/-- Outcome of SystemService.restartApplication: the response, the
isRestarting flag afterwards, and how many delayed restart actions were
scheduled by the call. -/
structure RestartOutcome where
  result : RestartResult
  isRestartingAfter : Bool
  scheduled : Nat
deriving DecidableEq, Repr

/-- SystemService.restartApplication, acting on the static isRestarting
flag: when a restart is already pending the call returns a declined
result without scheduling anything; otherwise it sets the flag, schedules
exactly one delayed restart action and returns an accepted result. -/
def restartApplication (isRestarting : Bool) : RestartOutcome :=
  if isRestarting then
    ⟨⟨false, "应用正在重启中，请勿重复操作"⟩, isRestarting, 0⟩
  else
    ⟨⟨true, "应用重启指令已发送，服务即将重启"⟩, true, 1⟩

/-- Outcome of the delayed restart action: whether the external pm2
restart command was issued, the exit code the process terminates with
(none when it keeps running awaiting the external restart), and the
isRestarting flag afterwards. -/
structure ScheduledRestartOutcome where
  issuedRestartCmd : Bool
  exitCode : Option Nat
  isRestartingAfter : Bool
deriving DecidableEq, Repr

/-- The delayed restart action scheduled by restartApplication: when the
body throws (`bodyThrows`), the catch clause clears the flag and
force-exits with code 1; otherwise under pm2 the external restart command
is issued and its failure (`cmdFails`) falls back to process.exit(0);
without pm2 the process exits with code 0 directly. -/
def scheduledRestartAction (isPm2 cmdFails bodyThrows : Bool) :
    ScheduledRestartOutcome :=
  if bodyThrows then
    ⟨false, some 1, false⟩
  else if isPm2 then
    if cmdFails then ⟨true, some 0, true⟩
    else ⟨true, none, true⟩
  else
    ⟨false, some 0, true⟩

/-- A pay-config row: id, the integer payType discriminator, the
BooleanNumber isEnable flag (1 = YES, 0 = NO), and the display name. -/
structure Payconfig where
  id : String
  payType : Nat
  isEnable : Nat
  name : String
deriving DecidableEq, Repr

/-- PayconfigService.getPayconfig: find a config whose payType matches and
whose isEnable equals BooleanNumber.YES (1); 404 when no such config
exists. -/
def getPayconfig (configs : List Payconfig) (payType : Nat) :
    Except HttpError Payconfig :=
  match configs.find? (fun c => c.isEnable == 1 && c.payType == payType) with
  | some c => .ok c
  | none => .error (.notFound "支付配置不存在")

/-- A date group key: the four named relative groups, or a year-month
group for older items (the template string year-month of the source). -/
inductive GroupKey where
  | today
  | yesterday
  | week
  | month
  | ym (year : Nat) (mon : Nat)
deriving DecidableEq, Repr

/-- The date of a conversation item: the local-midnight day index used for
the day difference, the calendar year and 1-based month used for the
year-month key, and the millisecond timestamp used for in-group
ordering. -/
structure ConvDate where
  day : Int
  year : Nat
  mon : Nat
  time : Int
deriving DecidableEq, Repr

/-- A conversation item: its date field and an opaque payload. -/
structure Conv where
  date : ConvDate
  payload : String
deriving DecidableEq, Repr

/-- getDateGroup: compare the item's local-midnight day with today's;
0 days ago is today, 1 yesterday, up to 7 the week group, up to 30 the
month group, and anything older the item's year-month group. -/
def getDateGroup (nowDay : Int) (d : ConvDate) : GroupKey :=
  let diffDays := nowDay - d.day
  if diffDays = 0 then .today
  else if diffDays = 1 then .yesterday
  else if diffDays ≤ 7 then .week
  else if diffDays ≤ 30 then .month
  else .ym d.year d.mon

/-- getGroupWeight: the sort weight of a group key; smaller sorts first. -/
def getGroupWeight : GroupKey → Int
  | .today => 1
  | .yesterday => 2
  | .week => 3
  | .month => 4
  | .ym y m => 1000 + (y : Int) * 100 + (m : Int)

/-- One output group of groupConversationsByDate; the display label (a
pure rendering of the key by getGroupLabel) is omitted. -/
structure Grouped where
  key : GroupKey
  items : List Conv
deriving DecidableEq, Repr

/-- Insert a key into the key list unless already present; one step of
filling the grouping Map. -/
def insertKey (ks : List GroupKey) (k : GroupKey) : List GroupKey :=
  if k ∈ ks then ks else ks ++ [k]

/-- The distinct group keys of the items in first-appearance order, the
key order of the grouping Map. -/
def groupKeysAux (nowDay : Int) (acc : List GroupKey) : List Conv → List GroupKey
  | [] => acc
  | it :: rest => groupKeysAux nowDay (insertKey acc (getDateGroup nowDay it.date)) rest

/-- The key set of the grouping Map built by groupConversationsByDate. -/
def groupKeys (nowDay : Int) (items : List Conv) : List GroupKey :=
  groupKeysAux nowDay [] items

/-- The in-group comparator: descending by the date field's timestamp. -/
def byTimeDesc (a b : Conv) : Bool :=
  decide (b.date.time ≤ a.date.time)

/-- The group comparator: ascending by getGroupWeight. -/
def byWeight (g1 g2 : Grouped) : Bool :=
  decide (getGroupWeight g1.key ≤ getGroupWeight g2.key)

/-- groupConversationsByDate: bucket each item by its date group, sort each
bucket descending by the item timestamp, and sort the buckets by group
weight (a stable sort, like the JS Array.prototype.sort). -/
def groupConversationsByDate (nowDay : Int) (items : List Conv) : List Grouped :=
  ((groupKeys nowDay items).map (fun k =>
      Grouped.mk k
        ((items.filter (fun it => getDateGroup nowDay it.date == k)).mergeSort
          byTimeDesc))).mergeSort
    byWeight

/-! ## Theorems -/

/-- Claim C4: from the Idle state, requestRestart sets the state to
RestartPending, schedules exactly one delayed restart action and returns
an accepted result; from the RestartPending state it returns a declined
already-restarting result as a normal response and schedules no second
action, so at most one restart sequence is ever in flight. -/
theorem restartApplication_reentrancy :
    restartApplication false =
      ⟨⟨true, "应用重启指令已发送，服务即将重启"⟩, true, 1⟩
    ∧ restartApplication true =
      ⟨⟨false, "应用正在重启中，请勿重复操作"⟩, true, 0⟩ := by
  constructor <;> rfl

/-- Claim C5: in the delayed restart action, a detected supervisor gets the
external restart command; a failed command, or no supervisor at all,
terminates the process with the designated success exit code 0; and an
error in the action itself force-terminates with the distinct failure
exit code 1 instead of staying in RestartPending. -/
theorem scheduledRestartAction_fallback (isPm2 cmdFails bodyThrows : Bool) :
    (bodyThrows = false → isPm2 = true →
      (scheduledRestartAction isPm2 cmdFails bodyThrows).issuedRestartCmd = true)
    ∧ (bodyThrows = false → isPm2 = true → cmdFails = true →
      (scheduledRestartAction isPm2 cmdFails bodyThrows).exitCode = some 0)
    ∧ (bodyThrows = false → isPm2 = false →
      (scheduledRestartAction isPm2 cmdFails bodyThrows).exitCode = some 0)
    ∧ (bodyThrows = true →
      (scheduledRestartAction isPm2 cmdFails bodyThrows).exitCode = some 1
      ∧ (scheduledRestartAction isPm2 cmdFails bodyThrows).isRestartingAfter = false) := by
  cases isPm2 <;> cases cmdFails <;> cases bodyThrows <;>
    simp [scheduledRestartAction]

/-- Witness for C5 at concrete inputs: pm2 detected with a failing command
exits 0 after issuing the command, and a throwing action exits 1. -/
theorem scheduledRestartAction_fallback_witness :
    (scheduledRestartAction true true false).issuedRestartCmd = true
    ∧ (scheduledRestartAction true true false).exitCode = some 0
    ∧ (scheduledRestartAction false false true).exitCode = some 1 :=
  ⟨(scheduledRestartAction_fallback true true false).1 rfl rfl,
   (scheduledRestartAction_fallback true true false).2.1 rfl rfl rfl,
   ((scheduledRestartAction_fallback false false true).2.2.2 rfl).1⟩

/-- Claim C10: getPayconfig only ever returns a stored configuration whose
payType matches and whose isEnable flag is set, and when no enabled
matching configuration exists it fails with the not-found error. -/
theorem getPayconfig_enabled_only (configs : List Payconfig) (payType : Nat) :
    (∀ c, getPayconfig configs payType = .ok c →
      c.payType = payType ∧ c.isEnable = 1 ∧ c ∈ configs)
    ∧ ((∀ c ∈ configs, ¬ (c.isEnable = 1 ∧ c.payType = payType)) →
      getPayconfig configs payType = .error (.notFound "支付配置不存在")) := by
  constructor
  · intro c hc
    unfold getPayconfig at hc
    cases hf : configs.find? (fun c => c.isEnable == 1 && c.payType == payType) with
    | none => rw [hf] at hc; cases hc
    | some c' =>
      rw [hf] at hc
      cases hc
      have hp := List.find?_some hf
      have hm := List.mem_of_find?_eq_some hf
      simp only [Bool.and_eq_true, beq_iff_eq] at hp
      exact ⟨hp.2, hp.1, hm⟩
  · intro hnone
    unfold getPayconfig
    have : configs.find? (fun c => c.isEnable == 1 && c.payType == payType) = none := by
      rw [List.find?_eq_none]
      intro c hc
      simp only [Bool.and_eq_true, beq_iff_eq, not_and]
      intro h1 h2
      exact hnone c hc ⟨h1, h2⟩
    rw [this]

/-- Witness for C10: a returned config is enabled and matching, and a store
holding only a disabled config of the requested payType yields 404. -/
theorem getPayconfig_enabled_only_witness :
    ((Payconfig.mk "p2" 2 1 "e").payType = 2
      ∧ (Payconfig.mk "p2" 2 1 "e").isEnable = 1
      ∧ Payconfig.mk "p2" 2 1 "e" ∈
          [Payconfig.mk "p1" 2 0 "d", Payconfig.mk "p2" 2 1 "e"])
    ∧ getPayconfig [Payconfig.mk "p1" 2 0 "d"] 2 =
        .error (.notFound "支付配置不存在") :=
  ⟨(getPayconfig_enabled_only
      [Payconfig.mk "p1" 2 0 "d", Payconfig.mk "p2" 2 1 "e"] 2).1
      (Payconfig.mk "p2" 2 1 "e") rfl,
   (getPayconfig_enabled_only [Payconfig.mk "p1" 2 0 "d"] 2).2 (by decide)⟩

/-- The id of a user located by findUser equals the requested id. -/
theorem findUser_id {users : List User} {id : String} {u : User}
    (h : findUser users id = some u) : u.id = id := by
  have := List.find?_some h
  simpa using this

/-- Claim C1: updating a stored root user fails with the authorization
error whenever the actor is not that user, succeeds (patch applied and
persisted) when the actor is the user itself, and a non-root target is
patched and persisted regardless of the actor. -/
theorem update_root_protection (st : AdminState) (u a : User)
    (patch : List (String × String)) (cacheOk : Bool)
    (hfind : findUser st.users u.id = some u) :
    (u.isRoot = true → a.id ≠ u.id →
      update st u.id patch a cacheOk =
        ⟨.error (.unauthorized "暂无权限"), st, []⟩)
    ∧ (u.isRoot = true → a.id = u.id →
        (update st u.id patch a cacheOk).response =
          .ok (projectUser ["password"] (applyPatch patch u))
        ∧ (update st u.id patch a cacheOk).state.users =
            updateUsersById st.users u.id patch)
    ∧ (u.isRoot = false →
        (update st u.id patch a cacheOk).response =
          .ok (projectUser ["password"] (applyPatch patch u))
        ∧ (update st u.id patch a cacheOk).state.users =
            updateUsersById st.users u.id patch) := by
  refine ⟨?_, ?_, ?_⟩
  · intro hroot hne
    simp [update, hfind, hroot, hne]
  · intro hroot heq
    cases cacheOk <;> simp [update, hfind, hroot, heq, afterUpdate]
  · intro hroot
    cases cacheOk <;> simp [update, hfind, hroot, afterUpdate]

/-- Witness for C1: a non-root actor is rejected on a root target, and the
root user patching itself succeeds. -/
theorem update_root_protection_witness :
    update ⟨[User.mk "u1" true [("name", "alice")]], []⟩ "u1" [("name", "bob")]
        (User.mk "a2" false []) true =
      ⟨.error (.unauthorized "暂无权限"),
       ⟨[User.mk "u1" true [("name", "alice")]], []⟩, []⟩
    ∧ (update ⟨[User.mk "u1" true [("name", "alice")]], []⟩ "u1" [("name", "bob")]
        (User.mk "u1" true [("name", "alice")]) true).response =
      .ok (projectUser ["password"]
        (applyPatch [("name", "bob")] (User.mk "u1" true [("name", "alice")]))) :=
  ⟨(update_root_protection ⟨[User.mk "u1" true [("name", "alice")]], []⟩
      (User.mk "u1" true [("name", "alice")]) (User.mk "a2" false [])
      [("name", "bob")] true rfl).1 rfl (by decide),
   ((update_root_protection ⟨[User.mk "u1" true [("name", "alice")]], []⟩
      (User.mk "u1" true [("name", "alice")]) (User.mk "u1" true [("name", "alice")])
      [("name", "bob")] true rfl).2.1 rfl rfl).1⟩

/-- Claim C2: deleting a root user fails with the authorization error
leaving the store untouched; a batch delete containing any root target
fails with the authorization error whose message joins every offending
root id and deletes nothing; without root targets both deletes proceed
and return a success flag. -/
theorem delete_root_protection :
    (∀ (users : List User) (u : User), findUser users u.id = some u →
      u.isRoot = true →
      remove users u.id = (.error (.unauthorized "暂无权限"), users))
    ∧ (∀ (users : List User) (u : User), findUser users u.id = some u →
      u.isRoot = false →
      remove users u.id = (.ok true, users.filter (fun v => v.id ≠ u.id)))
    ∧ (∀ (users : List User) (ids : List String), rootUserIds users ids ≠ [] →
      batchRemove users ids =
        (.error (.unauthorized ("超级管理员不可删除: " ++
          String.intercalate ", " (rootUserIds users ids))), users))
    ∧ (∀ (users : List User) (ids : List String), rootUserIds users ids = [] →
      batchRemove users ids =
        (.ok true, users.filter (fun u => ¬ ids.contains u.id))) := by
  refine ⟨?_, ?_, ?_, ?_⟩
  · intro users u hfind hroot
    simp [remove, hfind, hroot]
  · intro users u hfind hroot
    simp [remove, hfind, hroot]
  · intro users ids hroot
    have : (rootUserIds users ids).length > 0 := by
      cases h : rootUserIds users ids with
      | nil => exact absurd h hroot
      | cons a l => simp [h]
    simp [batchRemove, this]
  · intro users ids hroot
    simp [batchRemove, hroot]

/-- Witness for C2: deleting the stored root user is rejected with the
store unchanged, and a batch delete naming the root user is rejected with
a message listing its id. -/
theorem delete_root_protection_witness :
    remove [User.mk "r1" true []] "r1" =
      (.error (.unauthorized "暂无权限"), [User.mk "r1" true []])
    ∧ batchRemove [User.mk "r1" true [], User.mk "n2" false []] ["r1", "n2"] =
      (.error (.unauthorized "超级管理员不可删除: r1"),
       [User.mk "r1" true [], User.mk "n2" false []]) := by
  constructor
  · exact delete_root_protection.1 [User.mk "r1" true []]
      (User.mk "r1" true []) rfl rfl
  · have h := delete_root_protection.2.2.1
      [User.mk "r1" true [], User.mk "n2" false []] ["r1", "n2"] (by decide)
    simpa using h

/-- Claim C3: the result and persisted users of update do not depend on
whether the permission-cache invalidation succeeds; on success the cache
entry for the id is requested to be purged (purged when the purge
succeeds, a warning logged and the cache left alone when it fails), and
on a primary-path error nothing is purged and nothing logged. -/
theorem update_cache_best_effort (st : AdminState) (id : String)
    (patch : List (String × String)) (a : User) (cacheOk : Bool) :
    (update st id patch a cacheOk).response = (update st id patch a true).response
    ∧ (update st id patch a cacheOk).state.users =
        (update st id patch a true).state.users
    ∧ (∀ r, (update st id patch a cacheOk).response = .ok r →
        (update st id patch a true).state.permCache = clearUserCache st.permCache id
        ∧ (update st id patch a false).state.permCache = st.permCache
        ∧ (update st id patch a false).warnings = ["清理用户缓存失败"]
        ∧ (update st id patch a true).warnings = [])
    ∧ (∀ e, (update st id patch a cacheOk).response = .error e →
        (update st id patch a cacheOk).state = st
        ∧ (update st id patch a cacheOk).warnings = []) := by
  cases hfind : findUser st.users id with
  | none =>
    refine ⟨by simp [update, hfind], by simp [update, hfind], ?_, ?_⟩
    · intro r hr
      simp [update, hfind] at hr
    · intro e he
      simp [update, hfind]
  | some u =>
    have hid : u.id = id := findUser_id hfind
    by_cases hroot : u.isRoot = true
    · by_cases hne : a.id ≠ id
      · refine ⟨by simp [update, hfind, hroot, hne],
          by simp [update, hfind, hroot, hne], ?_, ?_⟩
        · intro r hr
          simp [update, hfind, hroot, hne] at hr
        · intro e he
          simp [update, hfind, hroot, hne]
      · refine ⟨?_, ?_, ?_, ?_⟩
        · cases cacheOk <;> simp [update, hfind, hroot, hne, afterUpdate]
        · cases cacheOk <;> simp [update, hfind, hroot, hne, afterUpdate]
        · intro r hr
          simp [update, hfind, hroot, hne, afterUpdate, hid]
        · intro e he
          cases cacheOk <;>
            simp [update, hfind, hroot, hne, afterUpdate] at he
    · refine ⟨?_, ?_, ?_, ?_⟩
      · cases cacheOk <;> simp [update, hfind, hroot, afterUpdate]
      · cases cacheOk <;> simp [update, hfind, hroot, afterUpdate]
      · intro r hr
        simp [update, hfind, hroot, afterUpdate, hid]
      · intro e he
        cases cacheOk <;> simp [update, hfind, hroot, afterUpdate] at he

/-- Witness for C3 at a concrete successful update: same response with and
without a cache failure, cache purged on success, warning logged on
failure. -/
theorem update_cache_best_effort_witness :
    (update ⟨[User.mk "u1" false []], ["u1", "u9"]⟩ "u1" [("name", "bob")]
        (User.mk "a2" false []) false).response =
      (update ⟨[User.mk "u1" false []], ["u1", "u9"]⟩ "u1" [("name", "bob")]
        (User.mk "a2" false []) true).response
    ∧ ((update ⟨[User.mk "u1" false []], ["u1", "u9"]⟩ "u1" [("name", "bob")]
        (User.mk "a2" false []) true).state.permCache =
          clearUserCache ["u1", "u9"] "u1"
      ∧ (update ⟨[User.mk "u1" false []], ["u1", "u9"]⟩ "u1" [("name", "bob")]
          (User.mk "a2" false []) false).state.permCache = ["u1", "u9"]
      ∧ (update ⟨[User.mk "u1" false []], ["u1", "u9"]⟩ "u1" [("name", "bob")]
          (User.mk "a2" false []) false).warnings = ["清理用户缓存失败"]
      ∧ (update ⟨[User.mk "u1" false []], ["u1", "u9"]⟩ "u1" [("name", "bob")]
          (User.mk "a2" false []) true).warnings = []) :=
  ⟨(update_cache_best_effort ⟨[User.mk "u1" false []], ["u1", "u9"]⟩ "u1"
      [("name", "bob")] (User.mk "a2" false []) false).1,
   (update_cache_best_effort ⟨[User.mk "u1" false []], ["u1", "u9"]⟩ "u1"
      [("name", "bob")] (User.mk "a2" false []) false).2.2.1
      (projectUser ["password"]
        (applyPatch [("name", "bob")] (User.mk "u1" false []))) rfl⟩

/-- The failure condition claimed for the login-settings validator: a
missing-or-empty login-method list, a missing-or-empty register-method
list, a default login method outside the allowed list, or any listed
method that is not a recognized identifier. -/
def badLoginSettings (c : LoginSettingsConfig) : Prop :=
  c.allowedLoginMethods.getD [] = []
  ∨ c.allowedRegisterMethods.getD [] = []
  ∨ c.defaultLoginMethod ∉ c.allowedLoginMethods.getD []
  ∨ ∃ m ∈ c.allowedLoginMethods.getD [] ++ c.allowedRegisterMethods.getD [],
      m ∉ validLoginTypes

/-- Claim C6: validation of a login-settings config fails exactly when the
allowed login methods are empty or missing, the allowed register methods
are empty or missing, the default login method is not among the allowed
login methods, or some listed method is unrecognized; every failure is a
ValidationError (paramError), and the validator is a pure function. -/
theorem validateLoginSettings_iff (c : LoginSettingsConfig) :
    (validateLoginSettings c = .ok () ↔ ¬ badLoginSettings c)
    ∧ (validateLoginSettings c = .ok ()
       ∨ ∃ msg, validateLoginSettings c = .error (.paramError msg)) := by
  cases hl : c.allowedLoginMethods with
  | none =>
    have hv : validateLoginSettings c =
        .error (.paramError "至少需要启用一种登录方式") := by
      simp [validateLoginSettings, hl]
    rw [hv]
    exact ⟨by simp [badLoginSettings, hl], Or.inr ⟨_, rfl⟩⟩
  | some ls =>
    by_cases he : ls.isEmpty
    · have hv : validateLoginSettings c =
          .error (.paramError "至少需要启用一种登录方式") := by
        simp [validateLoginSettings, hl, he]
      rw [hv]
      exact ⟨by simp [badLoginSettings, hl, List.isEmpty_iff.mp he], Or.inr ⟨_, rfl⟩⟩
    · have hne : ls ≠ [] := by simpa [List.isEmpty_iff] using he
      by_cases hd : c.defaultLoginMethod ∈ ls
      · cases hr : c.allowedRegisterMethods with
        | none =>
          have hv : validateLoginSettings c =
              .error (.paramError "至少需要启用一种注册方式") := by
            simp [validateLoginSettings, hl, he, hd, hr]
          rw [hv]
          exact ⟨by simp [badLoginSettings, hl, hr], Or.inr ⟨_, rfl⟩⟩
        | some rs =>
          by_cases hre : rs.isEmpty
          · have hv : validateLoginSettings c =
                .error (.paramError "至少需要启用一种注册方式") := by
              simp [validateLoginSettings, hl, he, hd, hr, hre]
            rw [hv]
            exact ⟨by simp [badLoginSettings, hl, hr, List.isEmpty_iff.mp hre],
              Or.inr ⟨_, rfl⟩⟩
          · have hrne : rs ≠ [] := by simpa [List.isEmpty_iff] using hre
            cases hf1 : ls.find? (fun m => ! decide (m ∈ validLoginTypes)) with
            | some m =>
              have hv : validateLoginSettings c =
                  .error (.paramError ("无效的登录方式: " ++ m)) := by
                simp [validateLoginSettings, hl, he, hd, hr, hre, hf1]
              rw [hv]
              have hm := List.mem_of_find?_eq_some hf1
              have hp := List.find?_some hf1
              simp only [Bool.not_eq_eq_eq_not, Bool.not_true, decide_eq_false_iff_not] at hp
              refine ⟨iff_of_false (by simp) (not_not_intro ?_), Or.inr ⟨_, rfl⟩⟩
              refine Or.inr (Or.inr (Or.inr ⟨m, ?_, hp⟩))
              simp [hl, hr, hm]
            | none =>
              cases hf2 : rs.find? (fun m => ! decide (m ∈ validLoginTypes)) with
              | some m =>
                have hv : validateLoginSettings c =
                    .error (.paramError ("无效的注册方式: " ++ m)) := by
                  simp [validateLoginSettings, hl, he, hd, hr, hre, hf1, hf2]
                rw [hv]
                have hm := List.mem_of_find?_eq_some hf2
                have hp := List.find?_some hf2
                simp only [Bool.not_eq_eq_eq_not, Bool.not_true,
                  decide_eq_false_iff_not] at hp
                refine ⟨iff_of_false (by simp) (not_not_intro ?_), Or.inr ⟨_, rfl⟩⟩
                refine Or.inr (Or.inr (Or.inr ⟨m, ?_, hp⟩))
                simp [hl, hr, hm]
              | none =>
                have hv : validateLoginSettings c = .ok () := by
                  simp [validateLoginSettings, hl, he, hd, hr, hre, hf1, hf2]
                rw [hv]
                have hall1 := List.find?_eq_none.mp hf1
                have hall2 := List.find?_eq_none.mp hf2
                refine ⟨?_, Or.inl rfl⟩
                simp only [true_iff, badLoginSettings, hl, hr, Option.getD_some]
                push_neg
                refine ⟨hne, hrne, hd, ?_⟩
                intro m hm
                rcases List.mem_append.mp hm with h | h
                · have := hall1 m h
                  simp_all
                · have := hall2 m h
                  simp_all
      · have hv : validateLoginSettings c =
            .error (.paramError "默认登录方式必须在允许的登录方式列表中") := by
          simp [validateLoginSettings, hl, he, hd]
        rw [hv]
        refine ⟨iff_of_false (by simp) (not_not_intro ?_), Or.inr ⟨_, rfl⟩⟩
        refine Or.inr (Or.inr (Or.inl ?_))
        simp [hl, hd]

/-- A column named in the exclusion list (other than the id column) is
absent from the projection. -/
theorem not_mem_projectUser (u : User) (excl : List String) (k v : String)
    (hk : k ∈ excl) (hid : k ≠ "id") : (k, v) ∉ projectUser excl u := by
  unfold projectUser
  intro hmem
  rcases List.mem_cons.mp hmem with h | h
  · exact hid (congrArg Prod.fst h)
  · have hp := List.of_mem_filter h
    simp at hp
    exact hp hk

/-- Claim C7 counterexample: the current-user info read excludes only the
password column, so a stored openid value is present in its returned
projection. -/
theorem getUserInfo_openid_counterexample :
    getUserInfo [User.mk "u1" false [("password", "h1"), ("openid", "wx-1")]] "u1" =
      .ok [("id", "u1"), ("openid", "wx-1")]
    ∧ ("openid", "wx-1") ∈ [("id", "u1"), ("openid", "wx-1")] := by
  exact ⟨rfl, by simp⟩

/-- Claim C7 (amended): both reads exclude the password column and the
single-user read additionally excludes the openid column; the
current-user info read returns the projection that excludes only the
password column, so the openid column is not excluded there. -/
theorem read_redaction_amended (users : List User) (id : String) (u : User)
    (hfind : findUser users id = some u) :
    getUserInfo users id = .ok (projectUser ["password"] u)
    ∧ (∀ v, ("password", v) ∉ projectUser ["password"] u)
    ∧ findOneById users id = .ok (projectUser ["password", "openid"] u)
    ∧ (∀ v, ("password", v) ∉ projectUser ["password", "openid"] u
        ∧ ("openid", v) ∉ projectUser ["password", "openid"] u) := by
  refine ⟨by simp [getUserInfo, hfind], ?_, by simp [findOneById, hfind], ?_⟩
  · intro v
    exact not_mem_projectUser u _ _ _ (by simp) (by decide)
  · intro v
    exact ⟨not_mem_projectUser u _ _ _ (by simp) (by decide),
      not_mem_projectUser u _ _ _ (by simp) (by decide)⟩

/-- Witness for the amended C7 at a concrete store. -/
theorem read_redaction_amended_witness :
    getUserInfo [User.mk "u1" false [("password", "h1"), ("openid", "wx-1")]] "u1" =
      .ok (projectUser ["password"]
        (User.mk "u1" false [("password", "h1"), ("openid", "wx-1")]))
    ∧ (∀ v, ("password", v) ∉ projectUser ["password"]
        (User.mk "u1" false [("password", "h1"), ("openid", "wx-1")]))
    ∧ findOneById [User.mk "u1" false [("password", "h1"), ("openid", "wx-1")]] "u1" =
      .ok (projectUser ["password", "openid"]
        (User.mk "u1" false [("password", "h1"), ("openid", "wx-1")]))
    ∧ (∀ v, ("password", v) ∉ projectUser ["password", "openid"]
        (User.mk "u1" false [("password", "h1"), ("openid", "wx-1")])
        ∧ ("openid", v) ∉ projectUser ["password", "openid"]
        (User.mk "u1" false [("password", "h1"), ("openid", "wx-1")])) :=
  read_redaction_amended [User.mk "u1" false [("password", "h1"), ("openid", "wx-1")]]
    "u1" (User.mk "u1" false [("password", "h1"), ("openid", "wx-1")]) rfl

/-- The value of one column of a user row, as the services read it. -/
def getField (k : String) (fs : List (String × String)) : Option String :=
  (fs.find? (fun kv => kv.1 == k)).map (fun kv => kv.2)

/-- Overwriting the column `k` in a row that has it puts `(k, v)` first in
the search order of that column. -/
theorem find?_key_map_set (k v : String) :
    ∀ fs : List (String × String), fs.any (fun kv => kv.1 == k) = true →
      (fs.map (fun kv => if kv.1 == k then (k, v) else kv)).find?
        (fun kv => kv.1 == k) = some (k, v) := by
  intro fs
  induction fs with
  | nil => intro h; simp at h
  | cons kv rest ih =>
    intro h
    by_cases hk : (kv.1 == k) = true
    · rw [List.map_cons, if_pos hk, List.find?_cons_of_pos _ (by simp)]
    · have hr : rest.any (fun kv => kv.1 == k) = true := by
        simp only [List.any_cons, hk, Bool.false_or] at h
        exact h
      rw [List.map_cons, if_neg hk, List.find?_cons_of_neg _ (by simp [hk])]
      exact ih hr

/-- After setField the column holds the assigned value. -/
theorem getField_setField (k v : String) (fs : List (String × String)) :
    getField k (setField k v fs) = some v := by
  unfold getField setField
  split
  · next hany => rw [find?_key_map_set k v fs hany]; rfl
  · next hany =>
    have hnone : fs.find? (fun kv => kv.1 == k) = none := by
      rw [List.find?_eq_none]
      intro kv hmem hp
      exact hany (List.any_eq_true.mpr ⟨kv, hmem, hp⟩)
    rw [List.find?_append, hnone, List.find?_cons_of_pos _ (by simp)]
    rfl

/-- Overwriting an excluded column does not change the filtered columns. -/
theorem filter_excl_map_set (excl : List String) (k v : String) (hk : k ∈ excl) :
    ∀ fs : List (String × String),
      (fs.map (fun kv => if kv.1 == k then (k, v) else kv)).filter
        (fun kv => ¬ excl.contains kv.1)
      = fs.filter (fun kv => ¬ excl.contains kv.1) := by
  intro fs
  induction fs with
  | nil => rfl
  | cons kv rest ih =>
    simp at ih
    by_cases hkv : (kv.1 == k) = true
    · have hkeq : kv.1 = k := by simpa using hkv
      simp [hkeq, hk, ih, List.filter_cons]
    · have hkne : kv.1 ≠ k := by simpa using hkv
      simp [hkne, ih, List.filter_cons]

/-- Setting an excluded column leaves the client projection unchanged. -/
theorem projectUser_set_excluded (excl : List String) (k v : String)
    (hk : k ∈ excl) (u : User) :
    projectUser excl { u with fields := setField k v u.fields } = projectUser excl u := by
  unfold projectUser setField
  split
  · next hany =>
    simp only [List.cons.injEq, true_and]
    exact filter_excl_map_set excl k v hk u.fields
  · simp [List.filter_append, hk]

/-- findUser on the store after a password reset finds the same row, with
the reset applied when it is the target. -/
theorem findUser_resetPassword (users : List User) (id tid : String) (p : String) :
    findUser (resetPassword users id p) tid
      = (findUser users tid).map (fun u =>
          if u.id == id then
            { u with fields := setField "password" (hashPassword p) u.fields }
          else u) := by
  unfold findUser resetPassword
  rw [List.find?_map]
  have hcomp : ((fun u : User => u.id == tid) ∘ (fun u : User =>
      if u.id == id then
        { u with fields := setField "password" (hashPassword p) u.fields }
      else u)) = fun u : User => u.id == tid := by
    funext u
    by_cases h : (u.id == id) = true <;> simp [Function.comp, h]
  rw [hcomp]

/-- Claim C8: resetPasswordAuto returns the freshly generated credential in
plaintext, stores its hash as the target's password column, and the
credential is not retrievable by any later read: both read operations
return exactly what they returned before the reset. -/
theorem resetPasswordAuto_plaintext_once (users : List User) (id : String) (seed : Nat) :
    (resetPasswordAuto users id seed).1 = generateRandomPassword seed
    ∧ (∀ u ∈ (resetPasswordAuto users id seed).2, u.id = id →
        getField "password" u.fields = some (hashPassword (generateRandomPassword seed)))
    ∧ findOneById (resetPasswordAuto users id seed).2 id = findOneById users id
    ∧ getUserInfo (resetPasswordAuto users id seed).2 id = getUserInfo users id := by
  refine ⟨rfl, ?_, ?_, ?_⟩
  · intro u hu hid
    have hu' : u ∈ resetPassword users id (generateRandomPassword seed) := hu
    unfold resetPassword at hu'
    rcases List.mem_map.mp hu' with ⟨u₀, hu₀, hfu⟩
    by_cases h : (u₀.id == id) = true
    · rw [if_pos h] at hfu
      rw [← hfu]
      exact getField_setField _ _ _
    · rw [if_neg h] at hfu
      rw [← hfu] at hid
      exact absurd (by simp [hid]) h
  · show findOneById (resetPassword users id (generateRandomPassword seed)) id
      = findOneById users id
    unfold findOneById
    rw [findUser_resetPassword]
    cases hf : findUser users id with
    | none => rfl
    | some u =>
      have hid : (u.id == id) = true := by simp [findUser_id hf]
      simp only [Option.map_some', if_pos hid]
      rw [projectUser_set_excluded _ _ _ (by simp) u]
  · show getUserInfo (resetPassword users id (generateRandomPassword seed)) id
      = getUserInfo users id
    unfold getUserInfo
    rw [findUser_resetPassword]
    cases hf : findUser users id with
    | none => rfl
    | some u =>
      have hid : (u.id == id) = true := by simp [findUser_id hf]
      simp only [Option.map_some', if_pos hid]
      rw [projectUser_set_excluded _ _ _ (by simp) u]

/-- Witness for C8 at a concrete store: the plaintext is returned once, the
hash is stored, and both reads are unchanged by the reset. -/
theorem resetPasswordAuto_plaintext_once_witness :
    (resetPasswordAuto [User.mk "u1" false [("password", "old")]] "u1" 7).1 =
      generateRandomPassword 7
    ∧ (∀ u ∈ (resetPasswordAuto [User.mk "u1" false [("password", "old")]] "u1" 7).2,
        u.id = "u1" →
        getField "password" u.fields = some (hashPassword (generateRandomPassword 7)))
    ∧ findOneById (resetPasswordAuto [User.mk "u1" false [("password", "old")]] "u1" 7).2
        "u1" = findOneById [User.mk "u1" false [("password", "old")]] "u1"
    ∧ getUserInfo (resetPasswordAuto [User.mk "u1" false [("password", "old")]] "u1" 7).2
        "u1" = getUserInfo [User.mk "u1" false [("password", "old")]] "u1" :=
  resetPasswordAuto_plaintext_once [User.mk "u1" false [("password", "old")]] "u1" 7

/-- The coarse position of a group key in the claimed output order: the
four named groups in their fixed order, then every year-month group. -/
def groupRank : GroupKey → Nat
  | .today => 0
  | .yesterday => 1
  | .week => 2
  | .month => 3
  | .ym _ _ => 4

/-- Weight order refines the claimed rank order: smaller weight never maps
to a larger rank. -/
theorem groupRank_le_of_weight_le {k1 k2 : GroupKey}
    (h : getGroupWeight k1 ≤ getGroupWeight k2) : groupRank k1 ≤ groupRank k2 := by
  cases k1 <;> cases k2 <;>
    simp only [getGroupWeight, groupRank] at h ⊢ <;> omega

/-- insertKey preserves distinctness of the key list. -/
theorem insertKey_nodup {ks : List GroupKey} (h : ks.Nodup) (k : GroupKey) :
    (insertKey ks k).Nodup := by
  unfold insertKey
  split
  · exact h
  · next hk =>
    rw [List.nodup_append]
    exact ⟨h, List.nodup_singleton k, by simpa [List.disjoint_singleton] using hk⟩

/-- insertKey keeps every key already present. -/
theorem mem_insertKey {ks : List GroupKey} {k' : GroupKey} (k : GroupKey)
    (h : k' ∈ ks) : k' ∈ insertKey ks k := by
  unfold insertKey
  split
  · exact h
  · exact List.mem_append_left _ h

/-- insertKey makes its key present. -/
theorem self_mem_insertKey (ks : List GroupKey) (k : GroupKey) :
    k ∈ insertKey ks k := by
  unfold insertKey
  split
  · assumption
  · exact List.mem_append_right _ (by simp)

/-- The accumulated key list of groupKeysAux stays distinct. -/
theorem groupKeysAux_nodup (nowDay : Int) (l : List Conv) :
    ∀ acc : List GroupKey, acc.Nodup → (groupKeysAux nowDay acc l).Nodup := by
  induction l with
  | nil => intro acc h; exact h
  | cons it rest ih => intro acc h; exact ih _ (insertKey_nodup h _)

/-- Keys already accumulated survive groupKeysAux. -/
theorem mem_groupKeysAux_of_mem (nowDay : Int) (l : List Conv) :
    ∀ acc : List GroupKey, ∀ k ∈ acc, k ∈ groupKeysAux nowDay acc l := by
  induction l with
  | nil => intro acc k hk; exact hk
  | cons it rest ih => intro acc k hk; exact ih _ k (mem_insertKey _ hk)

/-- Every item's group key appears in the groupKeysAux result. -/
theorem key_mem_groupKeysAux (nowDay : Int) (l : List Conv) :
    ∀ acc : List GroupKey, ∀ it ∈ l,
      getDateGroup nowDay it.date ∈ groupKeysAux nowDay acc l := by
  induction l with
  | nil => intro acc it hit; cases hit
  | cons it rest ih =>
    intro acc it' hit'
    cases hit' with
    | head =>
      exact mem_groupKeysAux_of_mem nowDay rest _ _
        (self_mem_insertKey acc (getDateGroup nowDay it.date))
    | tail _ h => exact ih _ it' h

/-- Pointwise-permuted bucket contents give permuted concatenations. -/
theorem flatMap_perm_of_pointwise {α β : Type} (ks : List α) (f g : α → List β)
    (h : ∀ k ∈ ks, (f k).Perm (g k)) : (ks.flatMap f).Perm (ks.flatMap g) := by
  induction ks with
  | nil => simp
  | cons k rest ih =>
    simp only [List.flatMap_cons]
    exact (h k (by simp)).append (ih fun k' hk' => h k' (by simp [hk']))

/-- Bucketing a list of items over a distinct key list that covers every
item's key and concatenating the buckets permutes the input: each item
lands in exactly one bucket. -/
theorem flatMap_filter_perm (keyOf : Conv → GroupKey) :
    ∀ (items : List Conv) (ks : List GroupKey), ks.Nodup →
      (∀ it ∈ items, keyOf it ∈ ks) →
      (ks.flatMap (fun k => items.filter (fun it => keyOf it == k))).Perm items := by
  intro items
  induction items with
  | nil =>
    intro ks _ _
    have : ks.flatMap (fun k => ([] : List Conv).filter (fun it => keyOf it == k))
        = [] := by simp
    rw [this]
  | cons it rest ih =>
    intro ks hnd hcov
    obtain ⟨ks₁, ks₂, hks⟩ := List.append_of_mem (hcov it (by simp))
    subst hks
    have hnodup := hnd
    rw [List.nodup_append] at hnodup
    have hnot₁ : keyOf it ∉ ks₁ := fun h =>
      (hnodup.2.2 h (by simp)).elim
    have hnot₂ : keyOf it ∉ ks₂ := by
      have := hnodup.2.1
      simp only [List.nodup_cons] at this
      exact this.1
    have hfilter_ne : ∀ k : GroupKey, k ≠ keyOf it →
        (it :: rest).filter (fun x => keyOf x == k)
          = rest.filter (fun x => keyOf x == k) := by
      intro k hne
      rw [List.filter_cons]
      have : (keyOf it == k) = false := by
        simpa using fun h => hne h.symm
      simp [this]
    have hfilter_eq : (it :: rest).filter (fun x => keyOf x == keyOf it)
        = it :: rest.filter (fun x => keyOf x == keyOf it) := by
      rw [List.filter_cons]
      simp
    have hcong₁ : ks₁.flatMap (fun k => (it :: rest).filter (fun x => keyOf x == k))
        = ks₁.flatMap (fun k => rest.filter (fun x => keyOf x == k)) := by
      apply List.flatMap_congr
      intro k hk
      exact hfilter_ne k (fun h => hnot₁ (h ▸ hk))
    have hcong₂ : ks₂.flatMap (fun k => (it :: rest).filter (fun x => keyOf x == k))
        = ks₂.flatMap (fun k => rest.filter (fun x => keyOf x == k)) := by
      apply List.flatMap_congr
      intro k hk
      exact hfilter_ne k (fun h => hnot₂ (h ▸ hk))
    have hrest : ∀ it' ∈ rest, keyOf it' ∈ ks₁ ++ keyOf it :: ks₂ := by
      intro it' h
      exact hcov it' (by simp [h])
    have heq1 : ((ks₁ ++ keyOf it :: ks₂).flatMap
            (fun k => (it :: rest).filter (fun x => keyOf x == k)))
        = ks₁.flatMap (fun k => rest.filter (fun x => keyOf x == k))
            ++ it :: (rest.filter (fun x => keyOf x == keyOf it)
              ++ ks₂.flatMap (fun k => rest.filter (fun x => keyOf x == k))) := by
      rw [List.flatMap_append, List.flatMap_cons, hcong₁, hcong₂, hfilter_eq]
      simp
    have heq2 : ks₁.flatMap (fun k => rest.filter (fun x => keyOf x == k))
          ++ (rest.filter (fun x => keyOf x == keyOf it)
            ++ ks₂.flatMap (fun k => rest.filter (fun x => keyOf x == k)))
        = ((ks₁ ++ keyOf it :: ks₂).flatMap
            (fun k => rest.filter (fun x => keyOf x == k))) := by
      rw [List.flatMap_append, List.flatMap_cons]
    rw [heq1]
    refine List.Perm.trans List.perm_middle ?_
    rw [heq2]
    exact (ih _ hnd hrest).cons it

/-- The group comparator is transitive. -/
theorem byWeight_trans : ∀ a b c : Grouped,
    byWeight a b = true → byWeight b c = true → byWeight a c = true := by
  intro a b c hab hbc
  simp only [byWeight, decide_eq_true_eq] at hab hbc ⊢
  omega

/-- The group comparator is total. -/
theorem byWeight_total : ∀ a b : Grouped, (byWeight a b || byWeight b a) = true := by
  intro a b
  simp only [byWeight, Bool.or_eq_true, decide_eq_true_eq]
  omega

/-- The in-group comparator is transitive. -/
theorem byTimeDesc_trans : ∀ a b c : Conv,
    byTimeDesc a b = true → byTimeDesc b c = true → byTimeDesc a c = true := by
  intro a b c hab hbc
  simp only [byTimeDesc, decide_eq_true_eq] at hab hbc ⊢
  omega

/-- The in-group comparator is total. -/
theorem byTimeDesc_total : ∀ a b : Conv, (byTimeDesc a b || byTimeDesc b a) = true := by
  intro a b
  simp only [byTimeDesc, Bool.or_eq_true, decide_eq_true_eq]
  omega

/-- Sorting the bucket list does not change the concatenation of the
buckets, up to permutation. -/
theorem flatMap_items_mergeSort_perm (gs : List Grouped) :
    ((gs.mergeSort byWeight).flatMap (fun g => g.items)).Perm
      (gs.flatMap (fun g => g.items)) := by
  rw [List.flatMap_def, List.flatMap_def]
  exact ((List.mergeSort_perm _ byWeight).map _).flatten

/-- Claim C9: the groups come out with the named groups in the fixed order
today, yesterday, week, month, all of them before every year-month group;
within every group the items are sorted descending by the date field; and
the groups partition the input, every item landing in exactly one
group. -/
theorem groupConversationsByDate_spec (nowDay : Int) (items : List Conv) :
    List.Pairwise (fun g1 g2 => groupRank g1.key ≤ groupRank g2.key)
      (groupConversationsByDate nowDay items)
    ∧ (∀ g ∈ groupConversationsByDate nowDay items,
        List.Pairwise (fun a b => b.date.time ≤ a.date.time) g.items)
    ∧ ((groupConversationsByDate nowDay items).flatMap (fun g => g.items)).Perm
        items := by
  refine ⟨?_, ?_, ?_⟩
  · have h := List.sorted_mergeSort byWeight_trans byWeight_total
      ((groupKeys nowDay items).map (fun k =>
        Grouped.mk k
          ((items.filter (fun it => getDateGroup nowDay it.date == k)).mergeSort
            byTimeDesc)))
    refine List.Pairwise.imp ?_ h
    intro a b hab
    exact groupRank_le_of_weight_le (by simpa [byWeight] using hab)
  · intro g hg
    unfold groupConversationsByDate at hg
    have hmem := (List.mergeSort_perm _ byWeight).mem_iff.mp hg
    rcases List.mem_map.mp hmem with ⟨k, hk, hgk⟩
    subst hgk
    have hs := List.sorted_mergeSort byTimeDesc_trans byTimeDesc_total
      (items.filter (fun it => getDateGroup nowDay it.date == k))
    refine List.Pairwise.imp ?_ hs
    intro a b hab
    simpa [byTimeDesc] using hab
  · unfold groupConversationsByDate
    refine (flatMap_items_mergeSort_perm _).trans ?_
    rw [List.flatMap_map]
    refine (flatMap_perm_of_pointwise _ _ _
      (fun k _ => List.mergeSort_perm _ _)).trans ?_
    exact flatMap_filter_perm (fun it => getDateGroup nowDay it.date) items
      (groupKeys nowDay items)
      (groupKeysAux_nodup nowDay items [] List.nodup_nil)
      (fun it hit => key_mem_groupKeysAux nowDay items [] it hit)

/-- Witness for C9 at a concrete input: two items of today and one item
two months old. -/
theorem groupConversationsByDate_spec_witness :
    List.Pairwise (fun g1 g2 => groupRank g1.key ≤ groupRank g2.key)
      (groupConversationsByDate 100
        [Conv.mk (ConvDate.mk 100 2026 10 500) "a",
         Conv.mk (ConvDate.mk 100 2026 10 900) "b",
         Conv.mk (ConvDate.mk 40 2025 12 10) "c"])
    ∧ (∀ g ∈ groupConversationsByDate 100
        [Conv.mk (ConvDate.mk 100 2026 10 500) "a",
         Conv.mk (ConvDate.mk 100 2026 10 900) "b",
         Conv.mk (ConvDate.mk 40 2025 12 10) "c"],
        List.Pairwise (fun a b => b.date.time ≤ a.date.time) g.items)
    ∧ ((groupConversationsByDate 100
        [Conv.mk (ConvDate.mk 100 2026 10 500) "a",
         Conv.mk (ConvDate.mk 100 2026 10 900) "b",
         Conv.mk (ConvDate.mk 40 2025 12 10) "c"]).flatMap (fun g => g.items)).Perm
        [Conv.mk (ConvDate.mk 100 2026 10 500) "a",
         Conv.mk (ConvDate.mk 100 2026 10 900) "b",
         Conv.mk (ConvDate.mk 40 2025 12 10) "c"] :=
  groupConversationsByDate_spec 100
    [Conv.mk (ConvDate.mk 100 2026 10 500) "a",
     Conv.mk (ConvDate.mk 100 2026 10 900) "b",
     Conv.mk (ConvDate.mk 40 2025 12 10) "c"]

end FastbuildAI
